import Mathlib

/-!
Verification of the VESC serial driver wire protocol (vesc_driver).

The repository ships only the public header `vesc_driver/vesc_interface.hpp`;
the protocol implementation (FrameCodec, FrameAssembler, ReceiverLoop,
DriverFacade) is specified in the design document.  The definitions below are
therefore modelled from the spec, faithful to its wording; each such
definition says so in its doc comment.
-/

set_option maxRecDepth 100000

namespace Vesc

/-! ## FrameCodec: CRC16 -/

/-- Modelled from the spec: one shift step of the CRC16 register with
polynomial 0x1021 (the FrameCodec implementation is not under src/).
The register is a 16-bit value kept as a `Nat` below `65536`. -/
def crcStep (c : Nat) : Nat :=
  if c.testBit 15 then ((c * 2) ^^^ 0x1021) % 65536 else (c * 2) % 65536

/-- Iterate `crcStep` a fixed number of times. -/
def crcBits : Nat → Nat → Nat
  | 0, c => c
  | n + 1, c => crcBits n (crcStep c)

/-- Modelled from the spec: fold one message byte into the CRC16 register
(xor the byte into the high half, then eight shift steps). -/
def crcByte (c b : Nat) : Nat :=
  crcBits 8 (c ^^^ (b * 256))

/-- CRC16 of a byte list starting from register value `c`. -/
def crc16From (c : Nat) : List Nat → Nat
  | [] => c
  | b :: rest => crc16From (crcByte c b) rest

/-- Modelled from the spec: CRC16 with polynomial 0x1021 and initial value 0,
computed over a byte list (the payload region `cmdId ++ payload`). -/
def crc16 (l : List Nat) : Nat := crc16From 0 l

/-! ## FrameCodec: encode / decode -/

/-- Big-endian two-byte serialization of a 16-bit value. -/
def toBytes2 (n : Nat) : List Nat := [n / 256 % 256, n % 256]

/-- Modelled from the spec: FrameCodec.encode builds
`[start-marker][length-header][cmdId ++ payload][crc16 big-endian][0x03]`,
start marker 0x02 with a 1-byte length for bodies of at most 255 bytes,
start marker 0x03 with a 2-byte big-endian length otherwise.  The CRC is
computed over `cmdId ++ payload` only. -/
def encode (cmdId : Nat) (payload : List Nat) : List Nat :=
  let body := cmdId :: payload
  let c := crc16 body
  if body.length ≤ 255 then
    [0x02, body.length] ++ body ++ toBytes2 c ++ [0x03]
  else
    [0x03, body.length / 256 % 256, body.length % 256] ++ body ++ toBytes2 c ++ [0x03]

/-- Header length of the encoded form of a body of `n` bytes:
start marker plus one or two length bytes. -/
def headerLen (n : Nat) : Nat := if n ≤ 255 then 2 else 3

/-- A decoded packet: the command id (first payload byte) together with the
raw payload region (`cmdId ++ payload` bytes of the frame). -/
structure Packet where
  id : Nat
  payload : List Nat
  deriving DecidableEq, Repr

/-- Errors FrameCodec.decode can report on a complete frame. -/
inductive DecodeError where
  | ChecksumError
  | MalformedFrame
  deriving DecidableEq, Repr

/-- Modelled from the spec: checks of the frame tail shared by both forms —
the declared body, the embedded big-endian checksum, the 0x03 end marker.
A checksum mismatch yields `ChecksumError`; dispatch keeps the raw payload
(unrecognized ids are not an error). -/
def decodeBody (len : Nat) (rest : List Nat) : Except DecodeError Packet :=
  match rest.drop len with
  | [hi, lo, e] =>
    if e = 0x03 then
      if crc16 (rest.take len) = hi * 256 + lo then
        .ok ⟨(rest.take len).headD 0, rest.take len⟩
      else .error .ChecksumError
    else .error .MalformedFrame
  | _ => .error .MalformedFrame

/-- Modelled from the spec: FrameCodec.decode of the bytes of one complete
frame: parse the start marker and length header, recompute the CRC16 over the
payload region and compare it to the embedded checksum. -/
def decode (bytes : List Nat) : Except DecodeError Packet :=
  match bytes with
  | 0x02 :: len :: rest => decodeBody len rest
  | 0x03 :: hi :: lo :: rest => decodeBody (hi * 256 + lo) rest
  | _ => .error .MalformedFrame

/-! ## Typed command helpers -/

/-- Two's-complement big-endian 4-byte serialization of an integer. -/
def int32be (n : Int) : List Nat :=
  let m := (n % (2 ^ 32 : Int)).toNat
  [m / 2 ^ 24 % 256, m / 2 ^ 16 % 256, m / 2 ^ 8 % 256, m % 256]

/-- Modelled from the spec: the SetDutyCycle command id. -/
def COMM_SET_DUTY : Nat := 5

/-- Modelled from the spec: `setDutyCycle` scales the duty ratio by 100000,
rounds to the nearest integer, serializes it as a 4-byte big-endian signed
integer and encodes it under command id 5.  The frame it writes: -/
def setDutyCycleFrame (duty : ℚ) : List Nat :=
  encode COMM_SET_DUTY (int32be (round (duty * 100000)))

/-- Flip bit `j` of the byte at position `i` of a byte list (used to state
single-bit corruption of a frame). -/
def flipBit (l : List Nat) (i j : Nat) : List Nat :=
  l.set i (l.getD i 0 ^^^ 2 ^ j)

/-! ## FrameAssembler -/

/-- A complete frame as assembled from the wire: declared length, payload
region bytes, embedded checksum. -/
structure Frame where
  length : Nat
  payload : List Nat
  checksum : Nat
  deriving DecidableEq, Repr

/-- Framing errors the assembler reports. -/
inductive AsmError where
  | OversizedFrame
  | InvalidEndMarker
  deriving DecidableEq, Repr

/-- Events the assembler emits while consuming bytes. -/
inductive AsmEvent where
  | frame (f : Frame)
  | err (e : AsmError)
  deriving DecidableEq, Repr

/-- Modelled from the spec: the assembler states Seeking, ReadingLength,
ReadingBody, ReadingChecksum, ReadingEnd (the FrameAssembler implementation
is not under src/).  `readingLength` records the form (`long` = two-byte
length) and the high length byte once read; `readingBody` records the
declared length and the body bytes read so far; `readingChecksum` records
the body and the first checksum byte once read; `readingEnd` records the
body and the embedded checksum. -/
inductive AsmState where
  | seeking
  | readingLength (long : Bool) (hi : Option Nat)
  | readingBody (len : Nat) (acc : List Nat)
  | readingChecksum (body : List Nat) (hi : Option Nat)
  | readingEnd (body : List Nat) (checksum : Nat)
  deriving DecidableEq, Repr

/-- Modelled from the spec: on completing the length header, a declared
length exceeding 65535 raises `OversizedFrame` and resets to Seeking;
otherwise the assembler proceeds to `readingBody`. -/
def afterLength (len : Nat) : AsmState × Option AsmEvent :=
  if len > 65535 then (.seeking, some (.err .OversizedFrame))
  else (.readingBody len [], none)

/-- Modelled from the spec: the per-byte transition function of the
FrameAssembler.  In `seeking`, 0x02 and 0x03 record the form and move to
`readingLength`, anything else is discarded; in `readingEnd`, 0x03 emits the
assembled frame, anything else raises `InvalidEndMarker`; both reset to
`seeking` and the offending byte is consumed, never reconsumed. -/
def step (s : AsmState) (b : Nat) : AsmState × Option AsmEvent :=
  match s with
  | .seeking =>
    if b = 2 then (.readingLength false none, none)
    else if b = 3 then (.readingLength true none, none)
    else (.seeking, none)
  | .readingLength false _ => afterLength b
  | .readingLength true none => (.readingLength true (some b), none)
  | .readingLength true (some hi) => afterLength (hi * 256 + b)
  | .readingBody len acc =>
    if acc.length + 1 < len then (.readingBody len (acc ++ [b]), none)
    else if acc.length + 1 = len then (.readingChecksum (acc ++ [b]) none, none)
    else (.readingChecksum acc (some b), none)
  | .readingChecksum body none => (.readingChecksum body (some b), none)
  | .readingChecksum body (some hi) => (.readingEnd body (hi * 256 + b), none)
  | .readingEnd body chk =>
    if b = 3 then (.seeking, some (.frame ⟨body.length, body, chk⟩))
    else (.seeking, some (.err .InvalidEndMarker))

/-- Run the assembler over a byte list, collecting emitted events. -/
def runAsm (s : AsmState) : List Nat → AsmState × List AsmEvent
  | [] => (s, [])
  | b :: rest =>
    let p := step s b
    let q := runAsm p.1 rest
    (q.1, p.2.toList ++ q.2)

/-- Modelled from the spec: the ReceiverLoop hands each assembled frame to
the codec; checksum verification is delegated there — a good frame becomes a
Packet, a bad one a `ChecksumError`. -/
def dispatchFrame (f : Frame) : Except DecodeError Packet :=
  if crc16 f.payload = f.checksum then .ok ⟨f.payload.headD 0, f.payload⟩
  else .error .ChecksumError

/-- The packets produced from a list of assembler events (frame events whose
checksum verifies). -/
def packetsOf (evs : List AsmEvent) : List Packet :=
  evs.filterMap fun e =>
    match e with
    | .frame f => (dispatchFrame f).toOption
    | .err _ => none

/-- Does this exact byte list decode as one complete valid frame? -/
def decodeOk (l : List Nat) : Bool :=
  match decode l with
  | .ok _ => true
  | .error _ => false

/-- A byte list contains a valid frame when some contiguous segment of it
decodes successfully (a segment is a prefix of a suffix). -/
def hasValidFrame (l : List Nat) : Bool :=
  l.tails.any fun t => t.inits.any decodeOk

/-- The wire bytes of a length header declaring a body of `len` bytes:
short form start marker 0x02 with one length byte, long form start marker
0x03 with two big-endian length bytes. -/
def ValidHeader (h : List Nat) (len : Nat) : Prop :=
  (h = [2, len] ∧ len < 256) ∨ (h = [3, len / 256, len % 256] ∧ len < 65536)

/-- The invariant tying an assembler state to the bytes consumed so far:
every partially assembled frame is a suffix of the consumed stream. -/
def Inv (s : AsmState) (consumed : List Nat) : Prop :=
  match s with
  | .seeking => True
  | .readingLength false none => [2] <:+ consumed
  | .readingLength false (some _) => False
  | .readingLength true none => [3] <:+ consumed
  | .readingLength true (some h1) => h1 < 256 ∧ [3, h1] <:+ consumed
  | .readingBody len acc =>
    ∃ hd, ValidHeader hd len ∧ (hd ++ acc) <:+ consumed ∧ acc.length ≤ len
  | .readingChecksum body none =>
    ∃ hd len, ValidHeader hd len ∧ body.length = len ∧ (hd ++ body) <:+ consumed
  | .readingChecksum body (some c1) =>
    ∃ hd len, ValidHeader hd len ∧ body.length = len ∧
      (hd ++ body ++ [c1]) <:+ consumed ∧ c1 < 256
  | .readingEnd body chk =>
    ∃ hd len, ValidHeader hd len ∧ body.length = len ∧
      (hd ++ body ++ [chk / 256, chk % 256]) <:+ consumed ∧ chk < 65536

/-! ## DriverFacade -/

/-- Modelled from the spec: the observable state of the DriverFacade — the
connection state, whether the ReceiverLoop thread is running, and the frames
written to the transport. -/
structure Facade where
  connected : Bool
  receiverRunning : Bool
  written : List (List Nat)
  deriving DecidableEq, Repr

/-- Result of `send`: ok, or the synchronous error returned to the caller. -/
inductive SendResult where
  | ok
  | sendError
  deriving DecidableEq, Repr

/-- Result of `connect`: ok, or the synchronous connection error. -/
inductive ConnectResult where
  | ok
  | connectionError
  deriving DecidableEq, Repr

/-- Initialization result of the constructor, which throws SerialException
when opening a nonempty port fails. -/
inductive InitError where
  | serialException
  deriving DecidableEq, Repr

/-- A handler invocation observed by the registered callbacks: the packet
handler with a decoded packet, or the error handler. -/
inductive HandlerCall where
  | packet (p : Packet)
  | errorCall
  deriving DecidableEq, Repr

/-- Modelled from the spec: `disconnect` is idempotent — it signals the
ReceiverLoop to stop, joins it (after which no handler can fire), closes the
transport and sets the state to Disconnected. -/
def disconnect (f : Facade) : Facade :=
  { f with connected := false, receiverRunning := false }

/-- Modelled from the spec: `connect` fails with a connection error when the
transport cannot be opened (`canOpen = false`); on success it sets the state
to Connected and starts the ReceiverLoop; called while already connected it
first disconnects. -/
def connect (canOpen : Bool) (f : Facade) : Facade × ConnectResult :=
  let f0 := if f.connected then disconnect f else f
  if canOpen then
    ({ f0 with connected := true, receiverRunning := true }, .ok)
  else (f0, .connectionError)

/-- Modelled from the spec: `send` fails when not connected — a synchronous
error result to the caller, no handler invocation, state unchanged;
otherwise it encodes the command via the codec and performs a single
synchronous write of the encoded frame to the transport. -/
def send (f : Facade) (cmdId : Nat) (payload : List Nat) :
    Facade × SendResult × List HandlerCall :=
  if f.connected then
    ({ f with written := f.written ++ [encode cmdId payload] }, .ok, [])
  else (f, .sendError, [])

/-- The handler invocations the ReceiverLoop dispatches for a list of
assembler events: packets to the packet handler, framing errors (including
checksum failures) to the error handler. -/
def dispatchEvents (evs : List AsmEvent) : List HandlerCall :=
  evs.map fun e =>
    match e with
    | .frame fr =>
      match dispatchFrame fr with
      | .ok p => .packet p
      | .error _ => .errorCall
    | .err _ => .errorCall

/-- Modelled from the spec: one read iteration of the ReceiverLoop — only a
running receiver thread reads a chunk and dispatches handler invocations;
once `disconnect` has joined the thread, nothing is read or dispatched. -/
def receiverStep (f : Facade) (bytes : List Nat) :
    Facade × List HandlerCall :=
  if f.receiverRunning then (f, dispatchEvents (runAsm .seeking bytes).2)
  else (f, [])

/-- The facade of a freshly constructed interface before any port is
opened. -/
def initialFacade : Facade := ⟨false, false, []⟩

/-- Modelled from the header documentation of the constructor in
`vesc_interface.hpp` (its implementation is not under src/): a nonempty
`port` is opened immediately — possibly throwing SerialException — while an
empty `port` leaves the serial port closed until `connect` is called.
The port address is modelled as its character list. -/
def vescInterfaceInit (port : List Char) (canOpen : Bool) :
    Except InitError Facade :=
  if port.isEmpty then .ok initialFacade
  else
    match connect canOpen initialFacade with
    | (f, .ok) => .ok f
    | (_, .connectionError) => .error .serialException

/-- Modelled from the header documentation of `isConnected`: true exactly
when the serial port is open. -/
def isConnected (f : Facade) : Bool := f.connected

/-- The facade operations a caller (or the receiver) can perform. -/
inductive Op where
  | opConnect (canOpen : Bool)
  | opDisconnect
  | opSend (cmdId : Nat) (payload : List Nat)
  | opRecv (bytes : List Nat)
  deriving DecidableEq, Repr

/-- Execute one operation, returning the new facade and the handler
invocations observed during it. -/
def exec (f : Facade) : Op → Facade × List HandlerCall
  | .opConnect canOpen => ((connect canOpen f).1, [])
  | .opDisconnect => (disconnect f, [])
  | .opSend c p => ((send f c p).1, [])
  | .opRecv bytes => receiverStep f bytes

/-- Execute a sequence of operations, collecting all observed handler
invocations in order. -/
def execTrace (f : Facade) : List Op → Facade × List HandlerCall
  | [] => (f, [])
  | op :: ops =>
    let p := exec f op
    let q := execTrace p.1 ops
    (q.1, p.2 ++ q.2)

/-! ## CRC register bounds -/

theorem crcStep_lt (c : Nat) : crcStep c < 65536 := by
  unfold crcStep
  split <;> exact Nat.mod_lt _ (by omega)

theorem crcBits_lt (n c : Nat) (h : c < 65536) : crcBits n c < 65536 := by
  induction n generalizing c with
  | zero => exact h
  | succ n ih => exact ih _ (crcStep_lt c)

theorem crcByte_lt (c b : Nat) : crcByte c b < 65536 := by
  show crcBits 7 (crcStep _) < 65536
  exact crcBits_lt 7 _ (crcStep_lt _)

theorem crc16From_lt (l : List Nat) (c : Nat) (h : c < 65536) :
    crc16From c l < 65536 := by
  induction l generalizing c with
  | nil => exact h
  | cons b rest ih => exact ih _ (crcByte_lt _ _)

theorem crc16_lt (l : List Nat) : crc16 l < 65536 :=
  crc16From_lt l 0 (by omega)

/-! ## CRC16 is GF(2)-linear, and sensitive to single-bit errors -/

theorem xor_mod_two_pow (a b n : Nat) :
    (a ^^^ b) % 2 ^ n = a % 2 ^ n ^^^ b % 2 ^ n := by
  apply Nat.eq_of_testBit_eq
  intro i
  simp only [Nat.testBit_mod_two_pow, Nat.testBit_xor]
  by_cases h : i < n <;> simp [h]

theorem xor_mod_65536 (a b : Nat) :
    (a ^^^ b) % 65536 = a % 65536 ^^^ b % 65536 := by
  have h := xor_mod_two_pow a b 16
  norm_num at h
  exact h

theorem xor_mul_two_pow (a b k : Nat) :
    (a ^^^ b) * 2 ^ k = a * 2 ^ k ^^^ b * 2 ^ k := by
  have h : ∀ x : Nat, x * 2 ^ k = x <<< k := fun x => (Nat.shiftLeft_eq x k).symm
  rw [h, h, h]
  apply Nat.eq_of_testBit_eq
  intro i
  simp only [Nat.testBit_shiftLeft, Nat.testBit_xor]
  by_cases hk : k ≤ i <;> simp [hk]

theorem two_mul_xor (a b : Nat) : (a ^^^ b) * 2 = a * 2 ^^^ b * 2 := by
  have h := xor_mul_two_pow a b 1
  norm_num at h
  exact h

theorem mul256_xor (a b : Nat) : (a ^^^ b) * 256 = a * 256 ^^^ b * 256 := by
  have h := xor_mul_two_pow a b 8
  norm_num at h
  exact h

theorem xor_ne_self (x t : Nat) (ht : t ≠ 0) : x ^^^ t ≠ x := by
  intro h
  apply ht
  have h2 : x ^^^ (x ^^^ t) = x ^^^ x := by rw [h]
  rw [← Nat.xor_assoc, Nat.xor_self, Nat.zero_xor] at h2
  exact h2

theorem xor_swap_middle (p q r s : Nat) :
    (p ^^^ q) ^^^ (r ^^^ s) = (p ^^^ r) ^^^ (q ^^^ s) := by
  rw [Nat.xor_assoc, Nat.xor_assoc]
  congr 1
  rw [← Nat.xor_assoc, ← Nat.xor_assoc, Nat.xor_comm q r]

theorem xor_xor_cancel (x y p : Nat) : (x ^^^ p) ^^^ (y ^^^ p) = x ^^^ y := by
  rw [Nat.xor_comm y p, Nat.xor_assoc, ← Nat.xor_assoc p p y, Nat.xor_self,
    Nat.zero_xor]

theorem crcStep_linear (a b : Nat) :
    crcStep (a ^^^ b) = crcStep a ^^^ crcStep b := by
  unfold crcStep
  rw [Nat.testBit_xor]
  cases hta : a.testBit 15 <;> cases htb : b.testBit 15 <;>
    simp only [Bool.false_xor, Bool.true_xor, Bool.xor_false, Bool.xor_true,
      Bool.not_false, Bool.not_true] <;>
    norm_num
  · rw [two_mul_xor, xor_mod_65536]
  · rw [two_mul_xor, Nat.xor_assoc, xor_mod_65536]
  · rw [two_mul_xor, Nat.xor_assoc, Nat.xor_comm (b * 2) 4129,
      ← Nat.xor_assoc, xor_mod_65536]
  · rw [two_mul_xor, ← xor_xor_cancel (a * 2) (b * 2) 4129, xor_mod_65536]

theorem crcBits_linear (n a b : Nat) :
    crcBits n (a ^^^ b) = crcBits n a ^^^ crcBits n b := by
  induction n generalizing a b with
  | zero => rfl
  | succ n ih =>
    show crcBits n (crcStep (a ^^^ b)) = _
    rw [crcStep_linear, ih]
    rfl

theorem crcByte_linear (a b x y : Nat) :
    crcByte (a ^^^ b) (x ^^^ y) = crcByte a x ^^^ crcByte b y := by
  unfold crcByte
  rw [mul256_xor, ← crcBits_linear, xor_swap_middle]

theorem crcBits_add (m n c : Nat) : crcBits (m + n) c = crcBits m (crcBits n c) := by
  induction n generalizing c with
  | zero => rfl
  | succ n ih => exact ih (crcStep c)

theorem crc16From_xor (d e : Nat) (msg : List Nat) :
    crc16From (d ^^^ e) msg = crc16From d msg ^^^ crcBits (8 * msg.length) e := by
  induction msg generalizing d e with
  | nil => rfl
  | cons b rest ih =>
    have h1 : crcByte (d ^^^ e) b = crcByte d b ^^^ crcByte e 0 := by
      have h := crcByte_linear d e b 0
      rwa [Nat.xor_zero] at h
    show crc16From (crcByte (d ^^^ e) b) rest = _
    rw [h1, ih]
    congr 1
    have h2 : crcByte e 0 = crcBits 8 e := by
      unfold crcByte
      rw [Nat.zero_mul, Nat.xor_zero]
    rw [h2, ← crcBits_add]
    have h3 : 8 * rest.length + 8 = 8 * (b :: rest).length := by
      simp [List.length_cons]
      omega
    rw [h3]

theorem crcStep_ne_zero (c : Nat) (h : c < 65536) (hc : c ≠ 0) :
    crcStep c ≠ 0 := by
  unfold crcStep
  split
  · intro h0
    rw [xor_mod_65536] at h0
    have h1 := Nat.xor_eq_zero.mp h0
    omega
  · next hbit =>
    intro h0
    have hb : c < 32768 := by
      rcases Nat.lt_or_ge c 32768 with h1 | h1
      · exact h1
      · exfalso
        apply hbit
        rw [Nat.testBit_to_div_mod]
        have h2 : c / 32768 = 1 := by omega
        norm_num [h2]
    omega

theorem crcBits_ne_zero (n c : Nat) (h : c < 65536) (hc : c ≠ 0) :
    crcBits n c ≠ 0 := by
  induction n generalizing c with
  | zero => exact hc
  | succ n ih => exact ih _ (crcStep_lt _) (crcStep_ne_zero _ h hc)

theorem crc16From_flip_ne (l : List Nat) (c k j : Nat) (hj : j < 8)
    (hk : k < l.length) :
    crc16From c (l.set k (l.getD k 0 ^^^ 2 ^ j)) ≠ crc16From c l := by
  induction l generalizing c k with
  | nil => simp at hk
  | cons b rest ih =>
    cases k with
    | zero =>
      simp only [List.set_cons_zero, List.getD_cons_zero]
      show crc16From (crcByte c (b ^^^ 2 ^ j)) rest ≠
        crc16From (crcByte c b) rest
      have h1 : crcByte c (b ^^^ 2 ^ j) = crcByte c b ^^^ crcByte 0 (2 ^ j) := by
        have h := crcByte_linear c 0 b (2 ^ j)
        rwa [Nat.xor_zero] at h
      rw [h1, crc16From_xor]
      apply xor_ne_self
      have hpow : (2 : Nat) ^ j ≤ 128 := by
        have h2 := Nat.pow_le_pow_right (by omega : 1 ≤ 2) (by omega : j ≤ 7)
        simpa using h2
      have hpos : 0 < (2 : Nat) ^ j := Nat.pos_pow_of_pos j (by omega)
      have hδne : crcByte 0 (2 ^ j) ≠ 0 := by
        unfold crcByte
        rw [Nat.zero_xor]
        exact crcBits_ne_zero _ _ (by omega) (by omega)
      exact crcBits_ne_zero _ _ (crcByte_lt _ _) hδne
    | succ k =>
      simp only [List.set_cons_succ, List.getD_cons_succ]
      exact ih (crcByte c b) k (by simpa using hk)

theorem crc16_flip_ne (l : List Nat) (k j : Nat) (hj : j < 8)
    (hk : k < l.length) : crc16 (flipBit l k j) ≠ crc16 l :=
  crc16From_flip_ne l 0 k j hj hk

/-! ## Bit flips against list structure -/

theorem flipBit_append_right (A B : List Nat) (i j : Nat) (h : A.length ≤ i) :
    flipBit (A ++ B) i j = A ++ flipBit B (i - A.length) j := by
  induction A generalizing i with
  | nil => simp [flipBit]
  | cons a as ih =>
    cases i with
    | zero => simp at h
    | succ i =>
      have h2 : as.length ≤ i := by simpa using h
      show flipBit (a :: (as ++ B)) (i + 1) j = _
      unfold flipBit at ih ⊢
      simp only [List.getD_cons_succ, List.set_cons_succ, List.cons_append,
        List.length_cons, Nat.add_sub_add_right]
      rw [ih i h2]

theorem flipBit_append_left (A B : List Nat) (i j : Nat) (h : i < A.length) :
    flipBit (A ++ B) i j = flipBit A i j ++ B := by
  induction A generalizing i with
  | nil => simp at h
  | cons a as ih =>
    cases i with
    | zero => simp [flipBit]
    | succ i =>
      have h2 : i < as.length := by simpa using h
      unfold flipBit at ih ⊢
      simp only [List.cons_append, List.getD_cons_succ, List.set_cons_succ]
      rw [ih i h2]

theorem decode_short (n : Nat) (rest : List Nat) :
    decode (2 :: n :: rest) = decodeBody n rest := rfl

theorem decode_long (h1 h2 : Nat) (rest : List Nat) :
    decode (3 :: h1 :: h2 :: rest) = decodeBody (h1 * 256 + h2) rest := rfl

theorem decodeBody_flip_tail (body : List Nat) (k j : Nat)
    (hk : k < body.length + 2) (hj : j < 8) :
    decodeBody body.length
      (flipBit (body ++ [crc16 body / 256 % 256, crc16 body % 256, 3]) k j) =
      .error .ChecksumError := by
  have hc : crc16 body < 65536 := crc16_lt _
  have hsplit : crc16 body / 256 % 256 * 256 + crc16 body % 256 = crc16 body := by
    omega
  have h2jne : (2 : Nat) ^ j ≠ 0 := (Nat.pos_pow_of_pos j (by omega)).ne'
  by_cases hk1 : k < body.length
  · rw [flipBit_append_left _ _ _ _ hk1]
    have hlen : (flipBit body k j).length = body.length := by simp [flipBit]
    have hne : crc16 (flipBit body k j) ≠
        crc16 body / 256 % 256 * 256 + crc16 body % 256 := by
      rw [hsplit]
      exact crc16_flip_ne body k j hj hk1
    unfold decodeBody
    rw [List.drop_left' hlen, List.take_left' hlen]
    simp [hne]
  · rw [flipBit_append_right _ _ _ _ (by omega)]
    have hk2 : k = body.length ∨ k = body.length + 1 := by omega
    rcases hk2 with hk2 | hk2
    · subst hk2
      rw [Nat.sub_self]
      show decodeBody body.length
        (body ++ [crc16 body / 256 % 256 ^^^ 2 ^ j, crc16 body % 256, 3]) = _
      have hne2 : ¬ crc16 body =
          (crc16 body / 256 % 256 ^^^ 2 ^ j) * 256 + crc16 body % 256 := by
        intro heq
        apply xor_ne_self (crc16 body / 256 % 256) (2 ^ j) h2jne
        generalize hg : crc16 body / 256 % 256 ^^^ 2 ^ j = t at heq ⊢
        omega
      unfold decodeBody
      rw [List.drop_left, List.take_left]
      simp [hne2]
    · subst hk2
      rw [Nat.add_sub_cancel_left]
      show decodeBody body.length
        (body ++ [crc16 body / 256 % 256, crc16 body % 256 ^^^ 2 ^ j, 3]) = _
      have hne2 : ¬ crc16 body =
          crc16 body / 256 % 256 * 256 + (crc16 body % 256 ^^^ 2 ^ j) := by
        intro heq
        apply xor_ne_self (crc16 body % 256) (2 ^ j) h2jne
        generalize hg : crc16 body % 256 ^^^ 2 ^ j = t at heq ⊢
        omega
      unfold decodeBody
      rw [List.drop_left, List.take_left]
      simp [hne2]

/-- C3: flipping any single bit within the payload region or the two checksum
bytes of a valid encoded frame makes `decode` report `ChecksumError` — and no
error of any other kind. -/
theorem decode_flip_checksumError (cmdId : Nat) (payload : List Nat) (i j : Nat)
    (hlen : payload.length + 1 ≤ 65535) (hj : j < 8)
    (hi1 : headerLen (payload.length + 1) ≤ i)
    (hi2 : i < headerLen (payload.length + 1) + payload.length + 3) :
    decode (flipBit (encode cmdId payload) i j) = .error .ChecksumError := by
  have hlc : (cmdId :: payload).length = payload.length + 1 := by simp
  by_cases hb : payload.length + 1 ≤ 255
  · have hh : headerLen (payload.length + 1) = 2 := by simp [headerLen, hb]
    rw [hh] at hi1 hi2
    have henc : encode cmdId payload =
        [2, payload.length + 1] ++
          ((cmdId :: payload) ++
            [crc16 (cmdId :: payload) / 256 % 256,
              crc16 (cmdId :: payload) % 256, 3]) := by
      unfold encode toBytes2
      rw [if_pos (by simpa using hb)]
      simp [hlc]
    rw [henc, flipBit_append_right _ _ _ _ (by simp; omega)]
    show decodeBody (payload.length + 1) _ = _
    have hk : i - ([2, payload.length + 1] : List Nat).length <
        (cmdId :: payload).length + 2 := by
      simp only [hlc]
      simp at hi1 ⊢
      omega
    have := decodeBody_flip_tail (cmdId :: payload)
      (i - ([2, payload.length + 1] : List Nat).length) j hk hj
    rw [hlc] at this
    simpa using this
  · have hh : headerLen (payload.length + 1) = 3 := by simp [headerLen, hb]
    rw [hh] at hi1 hi2
    have henc : encode cmdId payload =
        [3, (payload.length + 1) / 256 % 256, (payload.length + 1) % 256] ++
          ((cmdId :: payload) ++
            [crc16 (cmdId :: payload) / 256 % 256,
              crc16 (cmdId :: payload) % 256, 3]) := by
      unfold encode toBytes2
      rw [if_neg (by simpa using hb)]
      simp [hlc]
    rw [henc, flipBit_append_right _ _ _ _ (by simp; omega)]
    show decodeBody
      ((payload.length + 1) / 256 % 256 * 256 + (payload.length + 1) % 256) _ = _
    have hrecomb : (payload.length + 1) / 256 % 256 * 256 +
        (payload.length + 1) % 256 = payload.length + 1 := by omega
    rw [hrecomb]
    have hk : i - ([3, (payload.length + 1) / 256 % 256,
        (payload.length + 1) % 256] : List Nat).length <
        (cmdId :: payload).length + 2 := by
      simp only [hlc]
      simp at hi1 ⊢
      omega
    have := decodeBody_flip_tail (cmdId :: payload)
      (i - ([3, (payload.length + 1) / 256 % 256,
        (payload.length + 1) % 256] : List Nat).length) j hk hj
    rw [hlc] at this
    simpa using this

/-- Witness for C3: flipping bit 0 of the first payload byte of the
`setDutyCycle(0.5)` frame. -/
theorem decode_flip_checksumError_witness :
    (([0, 0, 195, 80] : List Nat).length + 1 ≤ 65535 ∧ 0 < 8 ∧
      headerLen (([0, 0, 195, 80] : List Nat).length + 1) ≤ 2 ∧
      2 < headerLen (([0, 0, 195, 80] : List Nat).length + 1) +
        ([0, 0, 195, 80] : List Nat).length + 3) ∧
    decode (flipBit (encode 5 [0, 0, 195, 80]) 2 0) = .error .ChecksumError :=
  ⟨⟨by decide, by decide, by decide, by decide⟩,
    decode_flip_checksumError 5 [0, 0, 195, 80] 2 0 (by decide) (by decide)
      (by decide) (by decide)⟩

/-! ## Round-trip: decode after encode -/

theorem decodeBody_exact (body : List Nat) (hi lo : Nat)
    (hchk : crc16 body = hi * 256 + lo) :
    decodeBody body.length (body ++ [hi, lo, 3]) = .ok ⟨body.headD 0, body⟩ := by
  unfold decodeBody
  rw [List.drop_left, List.take_left]
  simp [hchk]

/-- C2: for every command id and payload, decoding the bytes produced by
`encode` reconstructs the same command id and the same payload bytes
(`decode` after `encode` is the identity on command id and payload),
whenever the body fits the 16-bit length field. -/
theorem decode_encode (cmdId : Nat) (payload : List Nat)
    (hlen : payload.length + 1 ≤ 65535) :
    decode (encode cmdId payload) = .ok ⟨cmdId, cmdId :: payload⟩ := by
  have hcrc : crc16 (cmdId :: payload) < 65536 := crc16_lt _
  have hsplit : crc16 (cmdId :: payload) / 256 % 256 * 256 +
      crc16 (cmdId :: payload) % 256 = crc16 (cmdId :: payload) := by omega
  unfold encode
  by_cases hb : (cmdId :: payload).length ≤ 255
  · simp only [hb, if_true, toBytes2]
    show decode (2 :: (cmdId :: payload).length ::
      ((cmdId :: payload) ++ [_, _] ++ [3])) = _
    rw [List.append_assoc]
    show decodeBody (cmdId :: payload).length _ = _
    simpa using decodeBody_exact _ _ _ hsplit.symm
  · simp only [hb, if_false, toBytes2]
    show decode (3 :: (cmdId :: payload).length / 256 % 256 ::
      (cmdId :: payload).length % 256 ::
      ((cmdId :: payload) ++ [_, _] ++ [3])) = _
    rw [List.append_assoc]
    show decodeBody ((cmdId :: payload).length / 256 % 256 * 256 +
      (cmdId :: payload).length % 256) _ = _
    have hlen2 : (cmdId :: payload).length / 256 % 256 * 256 +
        (cmdId :: payload).length % 256 = (cmdId :: payload).length := by
      have : (cmdId :: payload).length ≤ 65535 := by
        simpa using hlen
      omega
    rw [hlen2]
    simpa using decodeBody_exact _ _ _ hsplit.symm

/-- Witness for C2 at a concrete command. -/
theorem decode_encode_witness :
    ([0, 0, 195, 80] : List Nat).length + 1 ≤ 65535 ∧
    decode (encode 5 [0, 0, 195, 80]) = .ok ⟨5, [5, 0, 0, 195, 80]⟩ :=
  ⟨by decide, decode_encode 5 [0, 0, 195, 80] (by decide)⟩

/-- C1: `setDutyCycle(0.5)` emits exactly the short frame
`02 05 05 00 00 C3 50 crc_hi crc_lo 03`, the payload being the 4-byte
big-endian integer 50000 (0.5 scaled by 100000) and the checksum being the
CRC16 (polynomial 0x1021, initial value 0) of the bytes `05 00 00 C3 50`. -/
theorem setDutyCycle_half_frame :
    setDutyCycleFrame (1 / 2) =
      [0x02, 0x05, 0x05, 0x00, 0x00, 0xC3, 0x50,
        crc16 [0x05, 0x00, 0x00, 0xC3, 0x50] / 256 % 256,
        crc16 [0x05, 0x00, 0x00, 0xC3, 0x50] % 256, 0x03] ∧
    crc16 [0x05, 0x00, 0x00, 0xC3, 0x50] = 0x3AA5 := by
  constructor
  · show encode 5 (int32be (round ((1 / 2 : ℚ) * 100000))) = _
    have h : round ((1 / 2 : ℚ) * 100000) = (50000 : ℤ) := by norm_num
    rw [h]
    decide
  · decide

/-! ## FrameAssembler: stepping lemmas -/

theorem runAsm_cons (s : AsmState) (b : Nat) (t : List Nat) :
    runAsm s (b :: t) =
      ((runAsm (step s b).1 t).1,
        (step s b).2.toList ++ (runAsm (step s b).1 t).2) := rfl

theorem runAsm_cons_none (s s2 : AsmState) (b : Nat) (t : List Nat)
    (h : step s b = (s2, none)) :
    runAsm s (b :: t) = runAsm s2 t := by
  rw [runAsm_cons, h]
  simp

theorem runAsm_cons_some (s s2 : AsmState) (b : Nat) (ev : AsmEvent)
    (t : List Nat) (h : step s b = (s2, some ev)) :
    runAsm s (b :: t) = ((runAsm s2 t).1, ev :: (runAsm s2 t).2) := by
  rw [runAsm_cons, h]
  simp

theorem runAsm_append (s : AsmState) (a b : List Nat) :
    runAsm s (a ++ b) =
      ((runAsm (runAsm s a).1 b).1,
        (runAsm s a).2 ++ (runAsm (runAsm s a).1 b).2) := by
  induction a generalizing s with
  | nil => simp [runAsm]
  | cons x xs ih =>
    simp only [List.cons_append, runAsm_cons, ih (step s x).1, List.append_assoc]

theorem runAsm_body (len : Nat) (acc xs rest : List Nat)
    (hlen : acc.length + xs.length = len) (hne : xs ≠ []) :
    runAsm (.readingBody len acc) (xs ++ rest) =
      runAsm (.readingChecksum (acc ++ xs) none) rest := by
  induction xs generalizing acc with
  | nil => simp at hne
  | cons x xs ih =>
    cases xs with
    | nil =>
      have h1 : acc.length + 1 = len := by simpa using hlen
      have h2 : ¬ acc.length + 1 < len := by omega
      show runAsm (.readingBody len acc) (x :: rest) = _
      rw [runAsm_cons_none (.readingBody len acc)
        (.readingChecksum (acc ++ [x]) none) x rest
        (by simp only [step]; rw [if_neg h2, if_pos h1])]
    | cons y ys =>
      have hlt : acc.length + 1 < len := by
        simp only [List.length_cons] at hlen
        omega
      show runAsm (.readingBody len acc) (x :: ((y :: ys) ++ rest)) = _
      rw [runAsm_cons_none (.readingBody len acc)
        (.readingBody len (acc ++ [x])) x _
        (by simp only [step]; rw [if_pos hlt])]
      have h3 := ih (acc ++ [x]) (by simp at hlen ⊢; omega) (by simp)
      rw [h3, List.append_assoc]
      rfl

theorem runAsm_short_frame (n : Nat) (body : List Nat) (hi lo : Nat)
    (rest : List Nat) (hn : body.length = n) (hn2 : n ≤ 65535)
    (hne : body ≠ []) :
    runAsm .seeking (2 :: n :: (body ++ (hi :: lo :: 3 :: rest))) =
      ((runAsm .seeking rest).1,
        .frame ⟨n, body, hi * 256 + lo⟩ :: (runAsm .seeking rest).2) := by
  rw [runAsm_cons_none .seeking (.readingLength false none) 2 _ rfl]
  rw [runAsm_cons_none (.readingLength false none) (.readingBody n []) n _
    (by simp only [step, afterLength]; rw [if_neg (by omega)])]
  rw [runAsm_body n [] body _ (by simpa using hn) hne, List.nil_append]
  rw [runAsm_cons_none (.readingChecksum body none)
    (.readingChecksum body (some hi)) hi _ rfl]
  rw [runAsm_cons_none (.readingChecksum body (some hi))
    (.readingEnd body (hi * 256 + lo)) lo _ rfl]
  rw [runAsm_cons_some (.readingEnd body (hi * 256 + lo)) .seeking 3
    (.frame ⟨body.length, body, hi * 256 + lo⟩) _ (by simp [step])]
  rw [hn]

theorem runAsm_long_frame (n : Nat) (body : List Nat) (h1 h2 hi lo : Nat)
    (rest : List Nat) (hn : body.length = n) (hrec : h1 * 256 + h2 = n)
    (hn2 : n ≤ 65535) (hne : body ≠ []) :
    runAsm .seeking (3 :: h1 :: h2 :: (body ++ (hi :: lo :: 3 :: rest))) =
      ((runAsm .seeking rest).1,
        .frame ⟨n, body, hi * 256 + lo⟩ :: (runAsm .seeking rest).2) := by
  rw [runAsm_cons_none .seeking (.readingLength true none) 3 _ rfl]
  rw [runAsm_cons_none (.readingLength true none)
    (.readingLength true (some h1)) h1 _ rfl]
  rw [runAsm_cons_none (.readingLength true (some h1)) (.readingBody n []) h2 _
    (by simp only [step, afterLength]; rw [hrec, if_neg (by omega)])]
  rw [runAsm_body n [] body _ (by simpa using hn) hne, List.nil_append]
  rw [runAsm_cons_none (.readingChecksum body none)
    (.readingChecksum body (some hi)) hi _ rfl]
  rw [runAsm_cons_none (.readingChecksum body (some hi))
    (.readingEnd body (hi * 256 + lo)) lo _ rfl]
  rw [runAsm_cons_some (.readingEnd body (hi * 256 + lo)) .seeking 3
    (.frame ⟨body.length, body, hi * 256 + lo⟩) _ (by simp [step])]
  rw [hn]

theorem runAsm_encode (cmdId : Nat) (payload : List Nat) (rest : List Nat)
    (hlen : payload.length + 1 ≤ 65535) :
    runAsm .seeking (encode cmdId payload ++ rest) =
      ((runAsm .seeking rest).1,
        .frame ⟨payload.length + 1, cmdId :: payload,
          crc16 (cmdId :: payload)⟩ :: (runAsm .seeking rest).2) := by
  have hc : crc16 (cmdId :: payload) < 65536 := crc16_lt _
  have hsplit : crc16 (cmdId :: payload) / 256 % 256 * 256 +
      crc16 (cmdId :: payload) % 256 = crc16 (cmdId :: payload) := by omega
  by_cases hb : payload.length + 1 ≤ 255
  · have henc : encode cmdId payload ++ rest =
        2 :: (payload.length + 1) :: ((cmdId :: payload) ++
          (crc16 (cmdId :: payload) / 256 % 256 ::
            crc16 (cmdId :: payload) % 256 :: 3 :: rest)) := by
      unfold encode toBytes2
      rw [if_pos (by simpa using hb)]
      simp
    rw [henc, runAsm_short_frame (payload.length + 1) (cmdId :: payload) _ _ _
      (by simp) (by omega) (by simp), hsplit]
  · have henc : encode cmdId payload ++ rest =
        3 :: (payload.length + 1) / 256 % 256 :: (payload.length + 1) % 256 ::
          ((cmdId :: payload) ++
            (crc16 (cmdId :: payload) / 256 % 256 ::
              crc16 (cmdId :: payload) % 256 :: 3 :: rest)) := by
      unfold encode toBytes2
      rw [if_neg (by simpa using hb)]
      simp
    rw [henc, runAsm_long_frame (payload.length + 1) (cmdId :: payload) _ _ _ _ _
      (by simp) (by omega) (by omega) (by simp), hsplit]

/-! ## FrameAssembler: the resynchronization invariant -/

theorem afterLength_no_frame (len : Nat) (f : Frame) :
    (afterLength len).2 ≠ some (.frame f) := by
  unfold afterLength
  split <;> simp

theorem inv_step (s : AsmState) (b : Nat) (consumed : List Nat)
    (hb : b < 256) (hinv : Inv s consumed) :
    Inv (step s b).1 (consumed ++ [b]) := by
  cases s with
  | seeking =>
    by_cases h2 : b = 2
    · have hs : step .seeking b = (.readingLength false none, none) := by
        simp [step, h2]
      rw [hs]
      exact ⟨consumed, by rw [h2]⟩
    · by_cases h3 : b = 3
      · have hs : step .seeking b = (.readingLength true none, none) := by
          simp [step, h2, h3]
        rw [hs]
        exact ⟨consumed, by rw [h3]⟩
      · have hs : step .seeking b = (.seeking, none) := by simp [step, h2, h3]
        rw [hs]
        trivial
  | readingLength long hi =>
    cases long with
    | false =>
      have hs : step (.readingLength false hi) b = afterLength b := rfl
      rw [hs]
      unfold afterLength
      by_cases hover : b > 65535
      · rw [if_pos hover]
        trivial
      · rw [if_neg hover]
        cases hi with
        | none =>
          obtain ⟨p, hp⟩ := hinv
          exact ⟨[2, b], Or.inl ⟨rfl, by omega⟩, ⟨p, by simp [← hp]⟩, by simp⟩
        | some h1 => exact hinv.elim
    | true =>
      cases hi with
      | none =>
        have hs : step (.readingLength true none) b =
            (.readingLength true (some b), none) := rfl
        rw [hs]
        obtain ⟨p, hp⟩ := hinv
        exact ⟨hb, ⟨p, by simp [← hp]⟩⟩
      | some h1 =>
        have hs : step (.readingLength true (some h1)) b =
            afterLength (h1 * 256 + b) := rfl
        rw [hs]
        unfold afterLength
        obtain ⟨hh1, p, hp⟩ := hinv
        by_cases hover : h1 * 256 + b > 65535
        · rw [if_pos hover]
          trivial
        · rw [if_neg hover]
          refine ⟨[3, h1, b], Or.inr ⟨?_, by omega⟩, ⟨p, by simp [← hp]⟩, by simp⟩
          have e1 : (h1 * 256 + b) / 256 = h1 := by omega
          have e2 : (h1 * 256 + b) % 256 = b := by omega
          rw [e1, e2]
  | readingBody len acc =>
    obtain ⟨hd, hvh, ⟨p, hp⟩, hle⟩ := hinv
    by_cases hlt : acc.length + 1 < len
    · have hs : step (.readingBody len acc) b =
          (.readingBody len (acc ++ [b]), none) := by simp [step, hlt]
      rw [hs]
      refine ⟨hd, hvh, ⟨p, by simp [← hp]⟩, ?_⟩
      simp only [List.length_append, List.length_cons, List.length_nil]
      omega
    · by_cases heq : acc.length + 1 = len
      · have hs : step (.readingBody len acc) b =
            (.readingChecksum (acc ++ [b]) none, none) := by simp [step, hlt, heq]
        rw [hs]
        refine ⟨hd, len, hvh, ?_, ⟨p, by simp [← hp]⟩⟩
        simp only [List.length_append, List.length_cons, List.length_nil]
        omega
      · have hs : step (.readingBody len acc) b =
            (.readingChecksum acc (some b), none) := by simp [step, hlt, heq]
        rw [hs]
        exact ⟨hd, len, hvh, by omega, ⟨p, by simp [← hp]⟩, hb⟩
  | readingChecksum body hi =>
    cases hi with
    | none =>
      have hs : step (.readingChecksum body none) b =
          (.readingChecksum body (some b), none) := rfl
      rw [hs]
      obtain ⟨hd, len, hvh, hbl, p, hp⟩ := hinv
      exact ⟨hd, len, hvh, hbl, ⟨p, by simp [← hp]⟩, hb⟩
    | some c1 =>
      have hs : step (.readingChecksum body (some c1)) b =
          (.readingEnd body (c1 * 256 + b), none) := rfl
      rw [hs]
      obtain ⟨hd, len, hvh, hbl, ⟨p, hp⟩, hc1⟩ := hinv
      have e1 : (c1 * 256 + b) / 256 = c1 := by omega
      have e2 : (c1 * 256 + b) % 256 = b := by omega
      refine ⟨hd, len, hvh, hbl, ⟨p, ?_⟩, by omega⟩
      rw [e1, e2]
      simp [← hp]
  | readingEnd body chk =>
    by_cases h3 : b = 3
    · have hs : step (.readingEnd body chk) b =
          (.seeking, some (.frame ⟨body.length, body, chk⟩)) := by
        simp [step, h3]
      rw [hs]
      trivial
    · have hs : step (.readingEnd body chk) b =
          (.seeking, some (.err .InvalidEndMarker)) := by simp [step, h3]
      rw [hs]
      trivial

theorem hasValidFrame_of (l t u : List Nat) (ht : t <:+ l) (hu : u <+: t)
    (hok : decodeOk u = true) : hasValidFrame l = true := by
  unfold hasValidFrame
  rw [List.any_eq_true]
  refine ⟨t, (List.mem_tails t l).mpr ht, ?_⟩
  rw [List.any_eq_true]
  exact ⟨u, (List.mem_inits u t).mpr hu, hok⟩

theorem emit_valid (s : AsmState) (b : Nat) (consumed : List Nat) (f : Frame)
    (hinv : Inv s consumed)
    (hemit : (step s b).2 = some (.frame f))
    (hcrc : crc16 f.payload = f.checksum) :
    ∃ u, u <:+ consumed ++ [b] ∧ decodeOk u = true := by
  cases s with
  | seeking =>
    exfalso
    by_cases h2 : b = 2
    · simp [step, h2] at hemit
    · by_cases h3 : b = 3 <;> simp [step, h2, h3] at hemit
  | readingLength long hi =>
    exfalso
    cases long with
    | false => exact afterLength_no_frame b f hemit
    | true =>
      cases hi with
      | none => simp [step] at hemit
      | some h1 => exact afterLength_no_frame (h1 * 256 + b) f hemit
  | readingBody len acc =>
    exfalso
    by_cases hlt : acc.length + 1 < len
    · simp [step, hlt] at hemit
    · by_cases heq : acc.length + 1 = len <;> simp [step, hlt, heq] at hemit
  | readingChecksum body hi =>
    exfalso
    cases hi <;> simp [step] at hemit
  | readingEnd body chk =>
    by_cases h3 : b = 3
    · subst h3
      have hstep : (step (.readingEnd body chk) 3).2 =
          some (.frame ⟨body.length, body, chk⟩) := by simp [step]
      rw [hstep] at hemit
      have hf : (⟨body.length, body, chk⟩ : Frame) = f :=
        AsmEvent.frame.inj (Option.some.inj hemit)
      obtain ⟨hd, len, hvh, hbl, ⟨p, hp⟩, hchk⟩ := hinv
      have hcb : crc16 body = chk := by
        have h := hcrc
        rw [← hf] at h
        exact h
      have hc2 : crc16 body = chk / 256 * 256 + chk % 256 := by omega
      refine ⟨hd ++ (body ++ [chk / 256, chk % 256, 3]), ⟨p, by simp [← hp]⟩, ?_⟩
      rcases hvh with ⟨hhd, hlt⟩ | ⟨hhd, hlt⟩
      · subst hhd
        unfold decodeOk
        rw [show decode ([2, len] ++ (body ++ [chk / 256, chk % 256, 3])) =
          decodeBody len (body ++ [chk / 256, chk % 256, 3]) from rfl]
        rw [← hbl, decodeBody_exact body (chk / 256) (chk % 256) hc2]
      · subst hhd
        unfold decodeOk
        rw [show decode ([3, len / 256, len % 256] ++
            (body ++ [chk / 256, chk % 256, 3])) =
          decodeBody (len / 256 * 256 + len % 256)
            (body ++ [chk / 256, chk % 256, 3]) from rfl]
        have e : len / 256 * 256 + len % 256 = len := by omega
        rw [e, ← hbl, decodeBody_exact body (chk / 256) (chk % 256) hc2]
    · exfalso
      simp [step, h3] at hemit

theorem packetsOf_append (a b : List AsmEvent) :
    packetsOf (a ++ b) = packetsOf a ++ packetsOf b := by
  simp [packetsOf]

theorem runAsm_no_packet (G : List Nat) (s : AsmState) (consumed : List Nat)
    (hG : ∀ x ∈ G, x < 256) (hinv : Inv s consumed)
    (hnf : hasValidFrame (consumed ++ G) = false) :
    packetsOf (runAsm s G).2 = [] := by
  induction G generalizing s consumed with
  | nil => rfl
  | cons b rest ih =>
    have hb : b < 256 := hG b (by simp)
    have hinv2 : Inv (step s b).1 (consumed ++ [b]) := inv_step s b consumed hb hinv
    have hnf2 : hasValidFrame ((consumed ++ [b]) ++ rest) = false := by
      rw [List.append_assoc]
      simpa using hnf
    have htail := ih (step s b).1 (consumed ++ [b])
      (fun x hx => hG x (by simp [hx])) hinv2 hnf2
    rw [runAsm_cons, packetsOf_append, htail, List.append_nil]
    cases hev : (step s b).2 with
    | none => rfl
    | some ev =>
      cases ev with
      | err e => rfl
      | frame f =>
        show packetsOf [.frame f] = []
        cases hdf : dispatchFrame f with
        | error e => simp [packetsOf, hdf, Except.toOption]
        | ok p =>
          exfalso
          have hcrc : crc16 f.payload = f.checksum := by
            unfold dispatchFrame at hdf
            by_cases hc : crc16 f.payload = f.checksum
            · exact hc
            · rw [if_neg hc] at hdf
              cases hdf
          obtain ⟨u, ⟨q, hq⟩, hok⟩ := emit_valid s b consumed f hinv hev hcrc
          have hvalid : hasValidFrame (consumed ++ b :: rest) = true := by
            apply hasValidFrame_of _ (u ++ rest) u _ ⟨rest, rfl⟩ hok
            refine ⟨q, ?_⟩
            rw [← List.append_assoc, hq]
            simp
          rw [hvalid] at hnf
          exact Bool.noConfusion hnf

/-! ## FrameAssembler: state-machine claims -/

/-- C5: in `readingEnd`, byte 0x03 emits the assembled frame and resets to
Seeking; any other byte raises `InvalidEndMarker` and resets to Seeking.
Exactly one byte is consumed by the erroring step — the offending byte is
not reconsumed as a start marker, and the bytes that follow it are processed
from Seeking. -/
theorem readingEnd_consumes_one (body : List Nat) (chk b : Nat)
    (rest : List Nat) :
    runAsm (.readingEnd body chk) (b :: rest) =
      if b = 3 then
        ((runAsm .seeking rest).1,
          .frame ⟨body.length, body, chk⟩ :: (runAsm .seeking rest).2)
      else
        ((runAsm .seeking rest).1,
          .err .InvalidEndMarker :: (runAsm .seeking rest).2) := by
  by_cases hb : b = 3
  · rw [if_pos hb, runAsm_cons_some (.readingEnd body chk) .seeking b
      (.frame ⟨body.length, body, chk⟩) rest
      (by simp only [step]; rw [if_pos hb])]
  · rw [if_neg hb, runAsm_cons_some (.readingEnd body chk) .seeking b
      (.err .InvalidEndMarker) rest (by simp only [step]; rw [if_neg hb])]

/-- C6: on completing the length header (one byte in the short form, two in
the long form), a declared length exceeding 65535 raises `OversizedFrame`
and resets to Seeking — the transition is a total function, so the assembler
neither crashes nor blocks — and otherwise the assembler proceeds to
`readingBody`. -/
theorem readingLength_oversize_guard (hi b : Nat) :
    step (.readingLength false none) b =
      (if b > 65535 then (.seeking, some (.err .OversizedFrame))
       else (.readingBody b [], none)) ∧
    step (.readingLength true (some hi)) b =
      (if hi * 256 + b > 65535 then (.seeking, some (.err .OversizedFrame))
       else (.readingBody (hi * 256 + b) [], none)) :=
  ⟨rfl, rfl⟩

/-! ## Resynchronization (C4) -/

/-- C4 fails as stated: the two bytes `02 05` contain no valid frame, yet
feeding them before a valid encoded frame leaves the assembler mid-frame, so
the valid frame's bytes are swallowed as the phantom frame's body and no
Packet at all is emitted (the claim demands exactly one). -/
theorem resync_counterexample :
    hasValidFrame [2, 5] = false ∧
    ¬ (packetsOf (runAsm .seeking
        ([2, 5] ++ encode 5 [0, 0, 195, 80])).2).length = 1 := by
  constructor
  · decide
  · decide

/-- C4 (amended): if the garbage bytes contain no valid frame and leave the
assembler back in Seeking, then feeding them followed by one valid encoded
frame emits exactly one Packet, bit-exact to the frame's payload region,
besides zero or more framing errors. -/
theorem resync_amended (G : List Nat) (cmdId : Nat) (payload : List Nat)
    (hG : ∀ x ∈ G, x < 256)
    (hnf : hasValidFrame G = false)
    (hseek : (runAsm .seeking G).1 = .seeking)
    (hlen : payload.length + 1 ≤ 65535) :
    packetsOf (runAsm .seeking (G ++ encode cmdId payload)).2 =
      [⟨cmdId, cmdId :: payload⟩] := by
  have henc2 : runAsm .seeking (encode cmdId payload) =
      (.seeking, [.frame ⟨payload.length + 1, cmdId :: payload,
        crc16 (cmdId :: payload)⟩]) := by
    have h := runAsm_encode cmdId payload [] hlen
    simpa [runAsm] using h
  rw [runAsm_append, hseek, henc2, packetsOf_append]
  rw [runAsm_no_packet G .seeking [] hG trivial (by simpa using hnf)]
  simp [packetsOf, dispatchFrame, Except.toOption]

/-- Witness for the amended C4 with one garbage byte before the frame. -/
theorem resync_amended_witness :
    ((∀ x ∈ ([7] : List Nat), x < 256) ∧ hasValidFrame [7] = false ∧
      (runAsm .seeking [7]).1 = .seeking ∧
      ([0, 0, 195, 80] : List Nat).length + 1 ≤ 65535) ∧
    packetsOf (runAsm .seeking ([7] ++ encode 5 [0, 0, 195, 80])).2 =
      [⟨5, [5, 0, 0, 195, 80]⟩] :=
  ⟨⟨by decide, by decide, by decide, by decide⟩,
    resync_amended [7] 5 [0, 0, 195, 80] (by decide) (by decide) (by decide)
      (by decide)⟩

/-! ## DriverFacade: lifecycle claims -/

theorem noConnect_stays_down (f : Facade) (ops : List Op)
    (hconn : f.connected = false) (hrun : f.receiverRunning = false)
    (hnc : ∀ op ∈ ops, ∀ c, op ≠ .opConnect c) :
    (execTrace f ops).1.connected = false ∧
    (execTrace f ops).1.receiverRunning = false ∧
    (execTrace f ops).2 = [] := by
  induction ops generalizing f with
  | nil => exact ⟨hconn, hrun, rfl⟩
  | cons op ops ih =>
    have hop : ∀ c, op ≠ Op.opConnect c := hnc op (by simp)
    have hstep : (exec f op).1.connected = false ∧
        (exec f op).1.receiverRunning = false ∧ (exec f op).2 = [] := by
      cases op with
      | opConnect c => exact absurd rfl (hop c)
      | opDisconnect => exact ⟨rfl, rfl, rfl⟩
      | opSend c p =>
        refine ⟨?_, ?_, rfl⟩ <;> simp [exec, send, hconn, hrun]
      | opRecv bytes =>
        refine ⟨?_, ?_, ?_⟩ <;> simp [exec, receiverStep, hconn, hrun]
    have htail := ih (exec f op).1 hstep.1 hstep.2.1
      (fun x hx => hnc x (by simp [hx]))
    show ((execTrace (exec f op).1 ops).1.connected = false) ∧ _ ∧
      (exec f op).2 ++ (execTrace (exec f op).1 ops).2 = []
    exact ⟨htail.1, htail.2.1, by rw [hstep.2.2, htail.2.2]; rfl⟩

/-- C7: `send` while disconnected returns the synchronous `sendError` to the
caller, invokes neither the packet handler nor the error handler, and leaves
the facade (connection state included) unchanged; only when connected does
`send` encode the command and perform a single synchronous write of the
encoded frame to the transport. -/
theorem send_requires_connection (f : Facade) (c : Nat) (p : List Nat) :
    (f.connected = false →
      send f c p = (f, .sendError, [])) ∧
    (f.connected = true →
      (send f c p).2.1 = .ok ∧ (send f c p).2.2 = [] ∧
        (send f c p).1.written = f.written ++ [encode c p] ∧
        (send f c p).1.connected = true) := by
  constructor <;> intro h <;> simp [send, h]

/-- Witness for C7 on concrete connected and disconnected facades. -/
theorem send_requires_connection_witness :
    ((⟨false, false, []⟩ : Facade).connected = false ∧
      send ⟨false, false, []⟩ 5 [0] = (⟨false, false, []⟩, .sendError, [])) ∧
    ((⟨true, true, []⟩ : Facade).connected = true ∧
      (send ⟨true, true, []⟩ 5 [0]).2.1 = .ok) :=
  ⟨⟨rfl, (send_requires_connection ⟨false, false, []⟩ 5 [0]).1 rfl⟩,
    ⟨rfl, ((send_requires_connection ⟨true, true, []⟩ 5 [0]).2 rfl).1⟩⟩

/-- C8: `connect` returns an explicit connection error to the caller when
the transport cannot be opened; on success it sets the state to Connected
and starts the ReceiverLoop; and calling it while already connected first
performs a disconnect before reconnecting. -/
theorem connect_behavior (f : Facade) (canOpen : Bool) :
    (canOpen = false → (connect canOpen f).2 = .connectionError ∧
      (connect canOpen f).1.connected = false) ∧
    (canOpen = true → (connect canOpen f).2 = .ok ∧
      (connect canOpen f).1.connected = true ∧
      (connect canOpen f).1.receiverRunning = true) ∧
    (f.connected = true → connect canOpen f = connect canOpen (disconnect f)) := by
  refine ⟨?_, ?_, ?_⟩
  · intro h
    subst h
    cases hf : f.connected <;> simp [connect, disconnect, hf]
  · intro h
    subst h
    cases hf : f.connected <;> simp [connect, disconnect, hf]
  · intro h
    simp [connect, disconnect, h]

/-- Witness for C8 at concrete facades. -/
theorem connect_behavior_witness :
    ((connect false ⟨false, false, []⟩).2 = .connectionError ∧
      (connect false ⟨false, false, []⟩).1.connected = false) ∧
    ((connect true ⟨false, false, []⟩).2 = .ok ∧
      (connect true ⟨false, false, []⟩).1.connected = true ∧
      (connect true ⟨false, false, []⟩).1.receiverRunning = true) ∧
    ((⟨true, true, []⟩ : Facade).connected = true ∧
      connect true ⟨true, true, []⟩ =
        connect true (disconnect ⟨true, true, []⟩)) :=
  ⟨(connect_behavior ⟨false, false, []⟩ false).1 rfl,
    (connect_behavior ⟨false, false, []⟩ true).2.1 rfl,
    rfl, (connect_behavior ⟨true, true, []⟩ true).2.2 rfl⟩

/-- C9: `disconnect` is idempotent — on an already disconnected facade it is
a no-op with no error — and once it returns (the ReceiverLoop thread joined,
modelled by the receiver-running flag being cleared before the call
returns), no packet-handler or error-handler invocation is observed under
any further operations until `connect` is called again. -/
theorem disconnect_teardown (f : Facade) (ops : List Op)
    (hnc : ∀ op ∈ ops, ∀ c, op ≠ .opConnect c) :
    disconnect (disconnect f) = disconnect f ∧
    (f.connected = false → f.receiverRunning = false → disconnect f = f) ∧
    (execTrace (disconnect f) ops).2 = [] := by
  refine ⟨rfl, ?_, ?_⟩
  · intro h1 h2
    cases f with
    | mk c r w =>
      unfold disconnect
      simp_all
  · exact (noConnect_stays_down (disconnect f) ops rfl rfl hnc).2.2

/-- Witness for C9: a connected facade torn down, then receive/send/another
disconnect observe no handler invocation. -/
theorem disconnect_teardown_witness :
    (∀ op ∈ ([.opRecv [2, 5, 5, 3], .opSend 5 [0], .opDisconnect] : List Op),
      ∀ c, op ≠ .opConnect c) ∧
    (disconnect (disconnect ⟨true, true, []⟩) = disconnect ⟨true, true, []⟩ ∧
      ((⟨true, true, []⟩ : Facade).connected = false →
        (⟨true, true, []⟩ : Facade).receiverRunning = false →
        disconnect ⟨true, true, []⟩ = ⟨true, true, []⟩) ∧
      (execTrace (disconnect ⟨true, true, []⟩)
        [.opRecv [2, 5, 5, 3], .opSend 5 [0], .opDisconnect]).2 = []) :=
  ⟨by decide,
    disconnect_teardown ⟨true, true, []⟩
      [.opRecv [2, 5, 5, 3], .opSend 5 [0], .opDisconnect] (by decide)⟩

/-- C10: constructing the interface with an empty (default) port string does
not open the serial port and does not fail — immediately afterwards
`isConnected` is false and the port stays closed under any operations that
are not a `connect`; only a nonempty port makes the constructor attempt the
open, succeeding into the connected state or throwing SerialException. -/
theorem init_empty_port (port : List Char) (canOpen : Bool) (ops : List Op)
    (hnc : ∀ op ∈ ops, ∀ c, op ≠ .opConnect c) :
    (port.isEmpty = true →
      vescInterfaceInit port canOpen = .ok initialFacade ∧
      isConnected initialFacade = false ∧
      (execTrace initialFacade ops).1.connected = false) ∧
    (port.isEmpty = false →
      vescInterfaceInit port canOpen =
        if canOpen then .ok ⟨true, true, []⟩ else .error .serialException) := by
  constructor
  · intro h
    refine ⟨by simp [vescInterfaceInit, h], rfl, ?_⟩
    exact (noConnect_stays_down initialFacade ops rfl rfl hnc).1
  · intro h
    cases canOpen <;>
      simp [vescInterfaceInit, h, connect, initialFacade, disconnect]

/-- Witness for C10 with the default empty port and a busy nonempty port. -/
theorem init_empty_port_witness :
    ((∀ op ∈ ([.opRecv [2, 5, 5, 3], .opSend 5 [0], .opDisconnect] : List Op),
        ∀ c, op ≠ .opConnect c) ∧
      (List.isEmpty ([] : List Char) = true) ∧
      (List.isEmpty ['t', 't', 'y'] = false)) ∧
    (vescInterfaceInit [] false = .ok initialFacade ∧
      isConnected initialFacade = false ∧
      (execTrace initialFacade
        [.opRecv [2, 5, 5, 3], .opSend 5 [0], .opDisconnect]).1.connected =
        false) ∧
    vescInterfaceInit ['t', 't', 'y'] false = .error .serialException :=
  ⟨⟨by decide, rfl, rfl⟩,
    (init_empty_port [] false
      [.opRecv [2, 5, 5, 3], .opSend 5 [0], .opDisconnect] (by decide)).1 rfl,
    by
      have h := (init_empty_port ['t', 't', 'y'] false
        [.opRecv [2, 5, 5, 3], .opSend 5 [0], .opDisconnect] (by decide)).2 rfl
      simpa using h⟩

end Vesc
